import Mathlib

/-!
Verification of the expectation-value evaluation workflow of
`demos/multi-qpu/observe_mpi.py`.

The script builds a two-qubit parametrized circuit `X(q0); RY(theta, q1);
CX(q1, q0)`, a spin Hamiltonian
`5.907 - 2.1433 X0X1 - 2.1433 Y0Y1 + 0.21829 Z0 - 6.125 Z1`,
computes the exact (no-shots) expectation value distributed over an MPI
worker set, asserts the value is close to a reference, and tears the MPI
runtime down.

The circuit, the Hamiltonian, the reference value and the control flow of
the script are transcribed from the source.  The statevector semantics,
the distributed evaluator and the MPI lifecycle live inside the external
CUDA-Q library and are modelled from the specification, as marked on each
definition below.
-/

/-- Single-qubit Pauli operator, as in the glossary of the spec. -/
inductive Pauli
  | I
  | X
  | Y
  | Z
deriving DecidableEq, Repr

/-- A tensor product of single-qubit Pauli operators indexed by qubit
position: one entry per touched qubit. -/
abbrev PauliString := List (Nat × Pauli)

/-- An observable: an ordered sequence of (real coefficient, Pauli product)
terms, as in the data model of the spec. -/
abbrev Observable := List (ℝ × PauliString)

/-- Amplitudes of a quantum state, indexed by the basis-state index whose
bit `q` is the value of qubit `q`.  A state on `n` qubits only uses the
indices below `2 ^ n`. -/
def QState := Nat → ℂ

/-- Modelled from the spec: the simulation collaborator is external, so basis
index arithmetic is standard.  Flip the bit of qubit `q` in basis index `i`. -/
def flipBit (q : Nat) (i : Nat) : Nat := i ^^^ 2 ^ q

/-- Modelled from the spec: the X gate of `kernel.x`, which permutes the
basis states by flipping the target bit. -/
noncomputable def applyX (q : Nat) (s : QState) : QState := fun i => s (flipBit q i)

/-- Modelled from the spec: the RY rotation of `kernel.ry` with angle `t`,
whose matrix on the target qubit is
`[[cos (t/2), -sin (t/2)], [sin (t/2), cos (t/2)]]`. -/
noncomputable def applyRY (t : ℝ) (q : Nat) (s : QState) : QState := fun i =>
  if i.testBit q then
    (Real.sin (t / 2) : ℂ) * s (flipBit q i) + (Real.cos (t / 2) : ℂ) * s i
  else
    (Real.cos (t / 2) : ℂ) * s i - (Real.sin (t / 2) : ℂ) * s (flipBit q i)

/-- Modelled from the spec: the controlled-X gate of `kernel.cx` with
control `c` and target `t`. -/
noncomputable def applyCX (c t : Nat) (s : QState) : QState := fun i =>
  if i.testBit c then s (flipBit t i) else s i

/-- The computational basis state with index `k`. -/
noncomputable def basisState (k : Nat) : QState := fun i => if i = k then 1 else 0

/-- One gate operation of a circuit.  `ry pidx q` rotates qubit `q` by the
free parameter number `pidx`, bound at evaluation time. -/
inductive GateOp
  | x (q : Nat)
  | ry (pidx : Nat) (q : Nat)
  | cx (c t : Nat)
deriving DecidableEq, Repr

/-- A circuit: a fixed register of `numQubits` qubits, `paramCount` free
scalar parameters and an ordered sequence of gates; immutable once defined
(data model of the spec). -/
structure Circuit where
  numQubits : Nat
  paramCount : Nat
  gates : List GateOp
deriving DecidableEq, Repr

/-- Semantics of one gate under a list of bound parameter values. -/
noncomputable def applyGate (params : List ℝ) : GateOp → QState → QState
  | .x q => applyX q
  | .ry pidx q => applyRY (params.getD pidx 0) q
  | .cx c t => applyCX c t

/-- Modelled from the spec: run a circuit from the all-zero basis state with
the given bound parameters, producing the final state (the external
simulation primitive consumed by the evaluator). -/
noncomputable def runCircuit (c : Circuit) (params : List ℝ) : QState :=
  c.gates.foldl (fun s g => applyGate params g s) (basisState 0)

/-- Action of a single Pauli operator on qubit `q` of a state. -/
noncomputable def applyPauli (p : Pauli) (q : Nat) (s : QState) : QState :=
  match p with
  | .I => s
  | .X => fun i => s (flipBit q i)
  | .Y => fun i =>
      if i.testBit q then Complex.I * s (flipBit q i) else -Complex.I * s (flipBit q i)
  | .Z => fun i => if i.testBit q then -s i else s i

/-- Action of a Pauli product on a state, one factor after the other. -/
noncomputable def applyPauliString (ps : PauliString) (s : QState) : QState :=
  ps.foldl (fun acc qp => applyPauli qp.2 qp.1 acc) s

/-- Modelled from the spec: the exact expectation of one Pauli product in a
state on `n` qubits, the inner product of the state with the operator
applied to it. -/
noncomputable def termExpectation (n : Nat) (s : QState) (ps : PauliString) : ℝ :=
  (∑ i in Finset.range (2 ^ n), (starRingEnd ℂ) (s i) * applyPauliString ps s i).re

/-- Weighted contribution of one observable term under a circuit and bound
parameters (step 2 of the evaluator behavior in the spec). -/
noncomputable def evalTerm (c : Circuit) (params : List ℝ) (t : ℝ × PauliString) : ℝ :=
  t.1 * termExpectation c.numQubits (runCircuit c params) t.2

/-- The kernel of the script: `X(q0); RY(theta, q1); CX(q1, q0)` on a
two-qubit register with one free parameter. -/
def kernel : Circuit := ⟨2, 1, [.x 0, .ry 0 1, .cx 1 0]⟩

/-- The spin Hamiltonian of the script:
`5.907 - 2.1433 X0X1 - 2.1433 Y0Y1 + 0.21829 Z0 - 6.125 Z1`. -/
noncomputable def hamiltonian : Observable :=
  [(5.907, []),
   (-2.1433, [(0, .X), (1, .X)]),
   (-2.1433, [(0, .Y), (1, .Y)]),
   (0.21829, [(0, .Z)]),
   (-6.125, [(1, .Z)])]

/-- The confirmed reference value of the script for `theta = 0.59`. -/
noncomputable def want_expectation_value : ℝ := -1.7487948611472093

/-- Modelled from the spec: non-distributed (worker-set size one)
evaluation, the plain weighted sum of the term expectations. -/
noncomputable def localExpectation (c : Circuit) (params : List ℝ) (obs : Observable) : ℝ :=
  ∑ i in Finset.range obs.length, evalTerm c params (obs.getD i (0, []))

/-- Modelled from the spec: the deterministic round-robin assignment; worker
`r` of `N` owns the term indices congruent to `r` modulo `N`. -/
def ownedIndices (N r len : Nat) : Finset Nat :=
  (Finset.range len).filter (fun i => i % N = r)

/-- Modelled from the spec: the local part computed by worker `r` of `N`,
the weighted sum over its owned subset of terms. -/
noncomputable def workerSum (c : Circuit) (params : List ℝ) (obs : Observable)
    (N r : Nat) : ℝ :=
  ∑ i in ownedIndices N r obs.length, evalTerm c params (obs.getD i (0, []))

/-- Modelled from the spec: the collective sum reduction over the ranks of
the worker set, the `all_reduce_sum` primitive of the distributed runtime. -/
noncomputable def allReduceSum (N : Nat) (f : Nat → ℝ) : ℝ :=
  ∑ r in Finset.range N, f r

/-- Modelled from the spec: the combined expectation scalar obtained by
distributing the terms over `N` workers and reducing the local parts. -/
noncomputable def combinedExpectation (c : Circuit) (params : List ℝ) (obs : Observable)
    (N : Nat) : ℝ :=
  allReduceSum N (workerSum c params obs N)

/-- A fixed-size collection of cooperating worker processes (data model of
the spec). -/
structure WorkerSet where
  size : Nat
deriving DecidableEq, Repr

/-- The error taxonomy of the spec. -/
inductive EvalError
  | ArityMismatch
  | IndexOutOfRange
  | InvalidShotCount
  | WorkerSetLifecycleError
  | SimulationFailure
deriving DecidableEq, Repr

/-- Whether every qubit index referenced by the observable lies within the
register of the circuit. -/
def observableInRange (c : Circuit) (obs : Observable) : Bool :=
  obs.all (fun t => t.2.all (fun qp => decide (qp.1 < c.numQubits)))

/-- Modelled from the spec: the precondition violations of a call to the
evaluator, one entry per violated input contract, in the order the spec
lists them (parameter arity, observable indices, shot count). -/
noncomputable def validationErrors (c : Circuit) (params : List ℝ) (obs : Observable)
    (shots : Option ℤ) : List EvalError :=
  (if c.paramCount = params.length then [] else [.ArityMismatch]) ++
  (if observableInRange c obs then [] else [.IndexOutOfRange]) ++
  (match shots with
   | none => []
   | some k => if 0 < k then [] else [.InvalidShotCount])

/-- Modelled from the spec: the evaluator contract
`evaluate(circuit, bound_parameters, observable, worker_set, shots)`.
The first component is the list of worker ranks invoked; a call whose
inputs violate a precondition fails before any worker is invoked.  The
model treats a positive shot count as an exact estimate, since only the
validation behavior of `shots` is specified. -/
noncomputable def evaluate (c : Circuit) (params : List ℝ) (obs : Observable)
    (ws : WorkerSet) (shots : Option ℤ) : List Nat × Except (List EvalError) ℝ :=
  if validationErrors c params obs shots = [] then
    (List.range ws.size, .ok (combinedExpectation c params obs ws.size))
  else
    ([], .error (validationErrors c params obs shots))

/-- A fallible result fails with a given error when it is an error carrying
that violation. -/
def failsWith (r : Except (List EvalError) ℝ) (e : EvalError) : Prop :=
  match r with
  | .error es => e ∈ es
  | .ok _ => False

/-- Modelled from the spec: the lifecycle phases of the process-wide
WorkerSet handle, established once at startup and torn down once. -/
inductive MpiPhase
  | fresh
  | active
  | done
deriving DecidableEq, Repr

/-- Modelled from the spec: `cudaq.mpi` bootstrap; legal only on a handle
that was never brought up before. -/
def mpiInit : MpiPhase → Except EvalError MpiPhase
  | .fresh => .ok .active
  | _ => .error .WorkerSetLifecycleError

/-- Modelled from the spec: `cudaq.mpi.finalize`; legal only on a handle
that is currently up. -/
def mpiFinalize : MpiPhase → Except EvalError MpiPhase
  | .active => .ok .done
  | _ => .error .WorkerSetLifecycleError

/-- Modelled from the spec: evaluation threaded through the lifecycle
phase.  Evaluation needs an active handle and never changes the phase. -/
noncomputable def evaluateSt (ph : MpiPhase) (c : Circuit) (params : List ℝ)
    (obs : Observable) (ws : WorkerSet) (shots : Option ℤ) :
    (List Nat × Except (List EvalError) ℝ) × MpiPhase :=
  match ph with
  | .active => (evaluate c params obs ws shots, .active)
  | ph => (([], .error [.WorkerSetLifecycleError]), ph)

/-- The two MPI lifecycle steps the script performs. -/
inductive MpiEvent
  | initEv
  | finalizeEv
deriving DecidableEq, Repr

/-- Trace and exit code of one terminating run of the script, as a function
of whether the `np.isclose` assertion passes: the script brings the MPI
runtime up, observes, asserts, and reaches the teardown line only when the
assertion holds; a failing assertion aborts the process with a nonzero
exit before the teardown line. -/
def scriptRun (pass : Bool) : List MpiEvent × Nat :=
  if pass then ([.initEv, .finalizeEv], 0) else ([.initEv], 1)

/-- The acceptance predicate of the script line
`np.isclose(want_expectation_value, expectation_value_no_shots)` with the
numpy defaults: `|a - b| <= atol + rtol * |b|` at `rtol = 1e-5` and
`atol = 1e-8`. -/
def npIsClose (a b : ℝ) : Prop := |a - b| ≤ 1e-8 + 1e-5 * |b|

theorem state_q0 (t : ℝ) : runCircuit kernel [t] 0 = 0 := by
  simp [runCircuit, kernel, applyGate, applyCX, applyRY, applyX, basisState, flipBit,
    List.foldl, Nat.testBit]

theorem state_q1 (t : ℝ) : runCircuit kernel [t] 1 = (Real.cos (t / 2) : ℂ) := by
  simp [runCircuit, kernel, applyGate, applyCX, applyRY, applyX, basisState, flipBit,
    List.foldl, Nat.testBit]

theorem state_q2 (t : ℝ) : runCircuit kernel [t] 2 = (Real.sin (t / 2) : ℂ) := by
  simp [runCircuit, kernel, applyGate, applyCX, applyRY, applyX, basisState, flipBit,
    List.foldl, Nat.testBit]

theorem state_q3 (t : ℝ) : runCircuit kernel [t] 3 = 0 := by
  simp [runCircuit, kernel, applyGate, applyCX, applyRY, applyX, basisState, flipBit,
    List.foldl, Nat.testBit]

theorem script_expectation (t : ℝ) :
    localExpectation kernel [t] hamiltonian =
      5.907 - 4.2866 * Real.sin t - 6.34329 * Real.cos t := by
  have h0 := state_q0 t
  have h1 := state_q1 t
  have h2 := state_q2 t
  have h3 := state_q3 t
  have hn : (2 : ℕ) ^ kernel.numQubits = 4 := by norm_num [kernel]
  have hsin : Real.sin t = 2 * Real.sin (t / 2) * Real.cos (t / 2) := by
    rw [← Real.sin_two_mul]; congr 1; ring
  have hcos : Real.cos t = Real.cos (t / 2) ^ 2 - Real.sin (t / 2) ^ 2 := by
    rw [← Real.cos_two_mul']; congr 1; ring
  have hone := Real.sin_sq_add_cos_sq (t / 2)
  simp only [localExpectation, hamiltonian, evalTerm, termExpectation, hn,
    List.length_cons, List.length_nil, Finset.sum_range_succ, Finset.range_zero,
    Finset.sum_empty, List.getD, applyPauliString, List.foldl, applyPauli, flipBit]
  simp [Nat.testBit, h0, h1, h2, h3, Complex.conj_ofReal, Complex.mul_re, Complex.add_re,
    Complex.mul_im, Complex.add_im, Complex.ofReal_re, Complex.ofReal_im,
    Complex.I_re, Complex.I_im, hsin, hcos, -Complex.ofReal_cos, -Complex.ofReal_sin,
    -Complex.ofReal_div]
  linear_combination (5907 / 1000 : ℝ) * hone

open Complex in
theorem taylor12_eq (x : ℝ) :
    (∑ m in Finset.range 12, ((x : ℂ) * I) ^ m / (Nat.factorial m : ℂ)) =
      ((1 - x ^ 2 / 2 + x ^ 4 / 24 - x ^ 6 / 720 + x ^ 8 / 40320 - x ^ 10 / 3628800 : ℝ) : ℂ) +
      ((x - x ^ 3 / 6 + x ^ 5 / 120 - x ^ 7 / 5040 + x ^ 9 / 362880 -
          x ^ 11 / 39916800 : ℝ) : ℂ) * I := by
  simp only [Finset.sum_range_succ, Finset.range_zero, Finset.sum_empty, mul_pow]
  norm_num [Nat.factorial]
  apply Complex.ext <;>
    simp [pow_succ, Complex.I_mul_I, Complex.add_re, Complex.add_im, Complex.mul_re,
      Complex.mul_im, Complex.ofReal_re, Complex.ofReal_im, Complex.div_re, Complex.div_im,
      Complex.normSq] <;> ring

open Complex in
theorem trig_taylor_bound (x : ℝ) (hx : |x| ≤ 1) :
    |Real.cos x - (1 - x ^ 2 / 2 + x ^ 4 / 24 - x ^ 6 / 720 + x ^ 8 / 40320 -
        x ^ 10 / 3628800)| ≤ |x| ^ 12 * (13 / 5748019200) ∧
    |Real.sin x - (x - x ^ 3 / 6 + x ^ 5 / 120 - x ^ 7 / 5040 + x ^ 9 / 362880 -
        x ^ 11 / 39916800)| ≤ |x| ^ 12 * (13 / 5748019200) := by
  have habs : Complex.abs ((x : ℂ) * I) ≤ 1 := by
    simpa [Complex.abs_ofReal] using hx
  have hb := Complex.exp_bound habs (show (0 : ℕ) < 12 by norm_num)
  rw [taylor12_eq x] at hb
  have hexp : Complex.exp ((x : ℂ) * I) =
      ((Real.cos x : ℝ) : ℂ) + ((Real.sin x : ℝ) : ℂ) * I := by
    rw [Complex.exp_mul_I, Complex.ofReal_cos, Complex.ofReal_sin]
  rw [hexp] at hb
  have hsplit : ((Real.cos x : ℝ) : ℂ) + ((Real.sin x : ℝ) : ℂ) * I -
      (((1 - x ^ 2 / 2 + x ^ 4 / 24 - x ^ 6 / 720 + x ^ 8 / 40320 -
          x ^ 10 / 3628800 : ℝ) : ℂ) +
       ((x - x ^ 3 / 6 + x ^ 5 / 120 - x ^ 7 / 5040 + x ^ 9 / 362880 -
          x ^ 11 / 39916800 : ℝ) : ℂ) * I) =
      ((Real.cos x - (1 - x ^ 2 / 2 + x ^ 4 / 24 - x ^ 6 / 720 + x ^ 8 / 40320 -
          x ^ 10 / 3628800) : ℝ) : ℂ) +
      ((Real.sin x - (x - x ^ 3 / 6 + x ^ 5 / 120 - x ^ 7 / 5040 + x ^ 9 / 362880 -
          x ^ 11 / 39916800) : ℝ) : ℂ) * I := by
    push_cast; ring
  rw [hsplit] at hb
  have hre := le_trans (Complex.abs_re_le_abs _) hb
  have him := le_trans (Complex.abs_im_le_abs _) hb
  simp only [Complex.add_re, Complex.add_im, Complex.ofReal_re, Complex.ofReal_im,
    Complex.mul_re, Complex.mul_im, Complex.I_re, Complex.I_im] at hre him
  have hnorm : Complex.abs ((x : ℂ) * I) = |x| := by simp [Complex.abs_ofReal]
  rw [hnorm] at hre him
  constructor
  · refine le_trans (le_of_eq (by ring_nf)) (le_trans hre ?_)
    norm_num [Nat.factorial]
  · refine le_trans (le_of_eq (by ring_nf)) (le_trans him ?_)
    norm_num [Nat.factorial]

theorem sin059_interval :
    (0.5563610228 : ℝ) ≤ Real.sin 0.59 ∧ Real.sin 0.59 ≤ (0.5563610230 : ℝ) := by
  obtain ⟨-, hs⟩ := trig_taylor_bound 0.59 (by norm_num [abs_of_pos])
  rw [abs_of_pos (by norm_num : (0 : ℝ) < 0.59)] at hs
  obtain ⟨hlo, hhi⟩ := abs_le.mp hs
  constructor <;> nlinarith [hlo, hhi]

theorem cos059_interval :
    (0.8309406790 : ℝ) ≤ Real.cos 0.59 ∧ Real.cos 0.59 ≤ (0.8309406792 : ℝ) := by
  obtain ⟨hc, -⟩ := trig_taylor_bound 0.59 (by norm_num [abs_of_pos])
  rw [abs_of_pos (by norm_num : (0 : ℝ) < 0.59)] at hc
  obtain ⟨hlo, hhi⟩ := abs_le.mp hc
  constructor <;> nlinarith [hlo, hhi]

theorem combined_eq_local (c : Circuit) (params : List ℝ) (obs : Observable)
    {N : Nat} (hN : 0 < N) :
    combinedExpectation c params obs N = localExpectation c params obs := by
  unfold combinedExpectation allReduceSum workerSum ownedIndices localExpectation
  exact Finset.sum_fiberwise_of_maps_to
    (fun i _ => Finset.mem_range.mpr (Nat.mod_lt i hN)) _

theorem script_checks_pass : validationErrors kernel [0.59] hamiltonian none = [] := by
  simp [validationErrors, observableInRange, kernel, hamiltonian]

theorem mem_validationErrors (c : Circuit) (params : List ℝ) (obs : Observable)
    (shots : Option ℤ) (e : EvalError) :
    e ∈ validationErrors c params obs shots ↔
      (e = .ArityMismatch ∧ c.paramCount ≠ params.length) ∨
      (e = .IndexOutOfRange ∧ observableInRange c obs = false) ∨
      (e = .InvalidShotCount ∧ ∃ k, shots = some k ∧ k ≤ 0) := by
  unfold validationErrors
  by_cases hp : c.paramCount = params.length <;>
    by_cases hi : observableInRange c obs = true <;>
    cases shots with
  | none => simp [hp, hi]
  | some k =>
    rcases le_or_lt k 0 with hk | hk
    · have h3 : (if (0 : ℤ) < k then ([] : List EvalError) else [.InvalidShotCount]) =
          [.InvalidShotCount] := if_neg (by omega)
      simp [hp, hi, h3, eq_true hk]
    · have h3 : (if (0 : ℤ) < k then ([] : List EvalError) else [.InvalidShotCount]) =
          [] := if_pos hk
      have hk2 : (k ≤ 0) = False := eq_false (by omega)
      simp [hp, hi, h3, hk2]

/-- C1: for the script's circuit with theta = 0.59 and its Hamiltonian, the
exact (no-shots) evaluation succeeds and returns the local expectation
value, which lies within 1e-6 of -1.7487948611472093. -/
theorem C1_exact_expectation_value :
    (evaluate kernel [0.59] hamiltonian ⟨1⟩ none).2 =
      Except.ok (localExpectation kernel [0.59] hamiltonian) ∧
    |localExpectation kernel [0.59] hamiltonian - want_expectation_value| < 1e-6 := by
  constructor
  · rw [evaluate, if_pos script_checks_pass]
    exact congrArg Except.ok (combined_eq_local kernel [0.59] hamiltonian one_pos)
  · rw [script_expectation, want_expectation_value, abs_lt]
    obtain ⟨hs1, hs2⟩ := sin059_interval
    obtain ⟨hc1, hc2⟩ := cos059_interval
    constructor <;> nlinarith [hs1, hs2, hc1, hc2]

/-- C2: for a fixed circuit, bound parameters and observable, the combined
expectation scalar does not depend on the worker-set size: any two positive
sizes give the same value (exactly, hence within any tolerance). -/
theorem C2_partition_invariance (c : Circuit) (params : List ℝ) (obs : Observable)
    (N M : Nat) (hN : 0 < N) (hM : 0 < M) :
    combinedExpectation c params obs N = combinedExpectation c params obs M := by
  rw [combined_eq_local c params obs hN, combined_eq_local c params obs hM]

theorem C2_partition_invariance_witness :
    0 < 2 ∧ 0 < 1 ∧
      combinedExpectation kernel [0.59] hamiltonian 2 =
        combinedExpectation kernel [0.59] hamiltonian 1 :=
  ⟨by decide, by decide,
    C2_partition_invariance kernel [0.59] hamiltonian 2 1 (by decide) (by decide)⟩

/-- C3 counterexample: on a terminating run where the result check fails,
the script performs the finalize step zero times, not exactly once — the
assertion aborts the process before the teardown line. -/
theorem C3_finalize_skipped_on_failed_check :
    (scriptRun false).1.count MpiEvent.finalizeEv = 0 := by decide

/-- C3 (amended): on every terminating run the script performs the
initialize step exactly once, and the finalize step exactly once when the
result check passes and zero times when it fails. -/
theorem C3_lifecycle_counts (pass : Bool) :
    (scriptRun pass).1.count MpiEvent.initEv = 1 ∧
    (scriptRun pass).1.count MpiEvent.finalizeEv = (if pass then 1 else 0) := by
  cases pass <;> exact ⟨rfl, rfl⟩

/-- C4: given that the assertion outcome reflects the numpy closeness test
of the computed value against the reference, the script exits nonzero
exactly when the value is not close; on a matching value it exits with 0. -/
theorem C4_exit_behavior (got : ℝ) (pass : Bool)
    (h : pass = true ↔ npIsClose want_expectation_value got) :
    (scriptRun pass).2 ≠ 0 ↔ ¬ npIsClose want_expectation_value got := by
  cases pass
  · have hnp : ¬ npIsClose want_expectation_value got := fun hc => by simpa using h.mpr hc
    simp [scriptRun, hnp]
  · have hnp : npIsClose want_expectation_value got := h.mp rfl
    simp [scriptRun, hnp]

theorem C4_exit_behavior_witness :
    ((true : Bool) = true ↔ npIsClose want_expectation_value want_expectation_value) ∧
    ((scriptRun true).2 ≠ 0 ↔ ¬ npIsClose want_expectation_value want_expectation_value) := by
  have h : (true : Bool) = true ↔ npIsClose want_expectation_value want_expectation_value := by
    refine ⟨fun _ => ?_, fun _ => rfl⟩
    unfold npIsClose
    rw [sub_self, abs_zero]
    positivity
  exact ⟨h, C4_exit_behavior want_expectation_value true h⟩

/-- C5: finalize before initialize fails with the lifecycle error, a second
initialize without an intervening finalize fails with the lifecycle error,
and the legal sequence initialize, use, finalize never produces it. -/
theorem C5_lifecycle_contract :
    mpiFinalize MpiPhase.fresh = Except.error EvalError.WorkerSetLifecycleError ∧
    mpiInit MpiPhase.fresh = Except.ok MpiPhase.active ∧
    mpiInit MpiPhase.active = Except.error EvalError.WorkerSetLifecycleError ∧
    (∀ (c : Circuit) (params : List ℝ) (obs : Observable) (ws : WorkerSet)
        (shots : Option ℤ),
      (evaluateSt MpiPhase.active c params obs ws shots).2 = MpiPhase.active ∧
      ¬ failsWith (evaluateSt MpiPhase.active c params obs ws shots).1.2
          EvalError.WorkerSetLifecycleError) ∧
    mpiFinalize MpiPhase.active = Except.ok MpiPhase.done := by
  refine ⟨rfl, rfl, rfl, fun c params obs ws shots => ⟨rfl, ?_⟩, rfl⟩
  intro hfail
  unfold evaluateSt evaluate at hfail
  by_cases h0 : validationErrors c params obs shots = []
  · rw [if_pos h0] at hfail
    exact hfail
  · rw [if_neg h0] at hfail
    rcases (mem_validationErrors c params obs shots _).mp hfail with
      ⟨h, -⟩ | ⟨h, -⟩ | ⟨h, -⟩ <;> exact EvalError.noConfusion h

/-- C6: a call to evaluate with shots equal to zero or negative fails with
InvalidShotCount and invokes no worker, whatever the other inputs; a call
with a positive shot count never carries this error. -/
theorem C6_shot_count_validation (c : Circuit) (params : List ℝ) (obs : Observable)
    (ws : WorkerSet) (k : ℤ) :
    (k ≤ 0 → (evaluate c params obs ws (some k)).1 = [] ∧
      failsWith (evaluate c params obs ws (some k)).2 EvalError.InvalidShotCount) ∧
    (0 < k → ¬ failsWith (evaluate c params obs ws (some k)).2
      EvalError.InvalidShotCount) := by
  constructor
  · intro hk
    have hmem : EvalError.InvalidShotCount ∈ validationErrors c params obs (some k) :=
      (mem_validationErrors c params obs (some k) _).mpr
        (Or.inr (Or.inr ⟨rfl, k, rfl, hk⟩))
    have hne : validationErrors c params obs (some k) ≠ [] := by
      intro h0
      rw [h0] at hmem
      exact List.not_mem_nil _ hmem
    rw [evaluate, if_neg hne]
    exact ⟨rfl, hmem⟩
  · intro hk hfail
    unfold evaluate at hfail
    by_cases h0 : validationErrors c params obs (some k) = []
    · rw [if_pos h0] at hfail
      exact hfail
    · rw [if_neg h0] at hfail
      rcases (mem_validationErrors c params obs (some k) _).mp hfail with
        ⟨h, -⟩ | ⟨h, -⟩ | ⟨-, k', hk', hneg⟩
      · exact EvalError.noConfusion h
      · exact EvalError.noConfusion h
      · rw [Option.some_inj] at hk'
        omega

theorem C6_shot_count_validation_witness :
    (0 : ℤ) ≤ 0 ∧ ((evaluate kernel [0.59] hamiltonian ⟨1⟩ (some 0)).1 = [] ∧
      failsWith (evaluate kernel [0.59] hamiltonian ⟨1⟩ (some 0)).2
        EvalError.InvalidShotCount) :=
  ⟨by decide, (C6_shot_count_validation kernel [0.59] hamiltonian ⟨1⟩ 0).1 (by decide)⟩

/-- C7: a call to evaluate whose circuit free-parameter count differs from
the number of bound parameters fails with ArityMismatch; when the counts
match, the result never carries an ArityMismatch error. -/
theorem C7_arity_validation (c : Circuit) (params : List ℝ) (obs : Observable)
    (ws : WorkerSet) (shots : Option ℤ) :
    (c.paramCount ≠ params.length →
      failsWith (evaluate c params obs ws shots).2 EvalError.ArityMismatch) ∧
    (c.paramCount = params.length →
      ¬ failsWith (evaluate c params obs ws shots).2 EvalError.ArityMismatch) := by
  constructor
  · intro hp
    have hmem : EvalError.ArityMismatch ∈ validationErrors c params obs shots :=
      (mem_validationErrors c params obs shots _).mpr (Or.inl ⟨rfl, hp⟩)
    have hne : validationErrors c params obs shots ≠ [] := by
      intro h0
      rw [h0] at hmem
      exact List.not_mem_nil _ hmem
    rw [evaluate, if_neg hne]
    exact hmem
  · intro hp hfail
    unfold evaluate at hfail
    by_cases h0 : validationErrors c params obs shots = []
    · rw [if_pos h0] at hfail
      exact hfail
    · rw [if_neg h0] at hfail
      rcases (mem_validationErrors c params obs shots _).mp hfail with
        ⟨-, h⟩ | ⟨h, -⟩ | ⟨h, -⟩
      · exact h hp
      · exact EvalError.noConfusion h
      · exact EvalError.noConfusion h

theorem C7_arity_validation_witness :
    kernel.paramCount ≠ ([] : List ℝ).length ∧
      failsWith (evaluate kernel [] hamiltonian ⟨1⟩ none).2 EvalError.ArityMismatch :=
  ⟨by decide, (C7_arity_validation kernel [] hamiltonian ⟨1⟩ none).1 (by decide)⟩

/-- C8: with no intervening lifecycle change, evaluating twice with the
same circuit, parameters, observable, worker set and shots gives the same
result both times, and the lifecycle phase after the second call is the
phase after the first. -/
theorem C8_idempotent_evaluation (ph : MpiPhase) (c : Circuit) (params : List ℝ)
    (obs : Observable) (ws : WorkerSet) (shots : Option ℤ) :
    (evaluateSt (evaluateSt ph c params obs ws shots).2 c params obs ws shots).1 =
      (evaluateSt ph c params obs ws shots).1 ∧
    (evaluateSt (evaluateSt ph c params obs ws shots).2 c params obs ws shots).2 =
      (evaluateSt ph c params obs ws shots).2 := by
  cases ph <;> exact ⟨rfl, rfl⟩

/-- C9: on the script's inputs no precondition is violated — the kernel has
two qubits and the observable only touches qubits 0 and 1, and the single
free parameter receives exactly one bound value — so evaluation reaches the
success branch for every worker set. -/
theorem C9_error_branches_unreachable (ws : WorkerSet) :
    validationErrors kernel [0.59] hamiltonian none = [] ∧
    (evaluate kernel [0.59] hamiltonian ws none).2 =
      Except.ok (combinedExpectation kernel [0.59] hamiltonian ws.size) := by
  refine ⟨script_checks_pass, ?_⟩
  rw [evaluate, if_pos script_checks_pass]

/-- C10: the script's acceptance check uses the numpy default tolerances,
so every value within 1e-6 of the reference passes it, while the value
reference + 1e-5 also passes it although it is farther than 1e-6 — the
default band is strictly looser than the 1e-6 tolerance of the spec. -/
theorem C10_isclose_band_looser :
    (∀ v : ℝ, |v - want_expectation_value| ≤ 1e-6 →
      npIsClose want_expectation_value v) ∧
    npIsClose want_expectation_value (want_expectation_value + 1e-5) ∧
    ¬ (|(want_expectation_value + 1e-5) - want_expectation_value| ≤ 1e-6) := by
  refine ⟨fun v hv => ?_, ?_, ?_⟩
  · unfold npIsClose
    have h1 : |want_expectation_value| - |v| ≤ |want_expectation_value - v| :=
      abs_sub_abs_le_abs_sub _ _
    have h2 : |want_expectation_value - v| = |v - want_expectation_value| :=
      abs_sub_comm _ _
    have h3 : |want_expectation_value| = 1.7487948611472093 := by
      rw [want_expectation_value, abs_of_neg (by norm_num)]
      norm_num
    rw [h2] at h1 ⊢
    rw [h3] at h1
    linarith [hv, h1]
  · unfold npIsClose
    have h1 : want_expectation_value - (want_expectation_value + 1e-5) = -(1e-5 : ℝ) := by
      ring
    have h2 : (want_expectation_value + 1e-5 : ℝ) = -1.7487848611472093 := by
      rw [want_expectation_value]
      norm_num
    rw [h1, h2, abs_neg, abs_of_pos (by norm_num), abs_of_neg (by norm_num)]
    norm_num
  · have h1 : (want_expectation_value + 1e-5) - want_expectation_value = (1e-5 : ℝ) := by
      ring
    rw [h1, abs_of_pos (by norm_num)]
    norm_num

theorem C10_isclose_band_looser_witness :
    |want_expectation_value - want_expectation_value| ≤ 1e-6 ∧
      npIsClose want_expectation_value want_expectation_value := by
  have h : |want_expectation_value - want_expectation_value| ≤ (1e-6 : ℝ) := by
    rw [sub_self, abs_zero]
    norm_num
  exact ⟨h, C10_isclose_band_looser.1 want_expectation_value h⟩
